import Mathlib

/-!
Shallow embedding of `src/main.py` (v1.3.0 of the task-manager API):
a FastAPI service with three routes — `POST /tasks` (`create_task`),
`GET /tasks` (`list_tasks`), `PATCH /tasks/{task_id}` (`complete_task`) —
over a single `tasks` table.  The table is a `List Task`; timestamps are
naturals; the randomness of `random.randint` is an input stream
`draws : Nat → Nat` squeezed into the PID range exactly as `randint`
bounds its result.  HTTP errors raised via `HTTPException` become an
`ApiError` value; the SQLAlchemy session is request-scoped state passed
explicitly.
-/

namespace TaskManager

/-- Enum `TaskStatus` of `main.py` (v1.3.0 keeps only these two members). -/
inductive TaskStatus where
  | running
  | completed
deriving DecidableEq, Repr

/-- A row of the `tasks` table (the `Task` ORM model).  `priority` is a
Python int; `created_at` is a timestamp; `updated_at` is nullable. -/
structure Task where
  id : Nat
  name : String
  priority : Int
  owner : String
  command : String
  status : TaskStatus
  created_at : Nat
  updated_at : Option Nat
deriving DecidableEq, Repr

/-- The `tasks` table: one row per task. -/
abbrev Table := List Task

/-- The error outcomes the handlers raise (`HTTPException` status codes,
plus the 422 produced by FastAPI/pydantic request validation). -/
inductive ApiError where
  | notFound
  | conflict
  | pidExhausted
  | invalidBody
deriving DecidableEq, Repr

/-- HTTP status code carried by each error. -/
def ApiError.code : ApiError → Nat
  | .notFound => 404
  | .conflict => 409
  | .pidExhausted => 500
  | .invalidBody => 422

/-- Constant `PID_MIN` from `main.py`. -/
def PID_MIN : Nat := 1000

/-- Constant `PID_MAX` from `main.py`. -/
def PID_MAX : Nat := 99999

/-- One draw of `random.randint(PID_MIN, PID_MAX)`: an arbitrary natural
from the stream, reduced into the inclusive range `[PID_MIN, PID_MAX]`
(the contract of `randint`; the distribution is irrelevant here). -/
def pidOf (r : Nat) : Nat := PID_MIN + r % (PID_MAX - PID_MIN + 1)

/-- The loop body of `_generate_unique_pid`: at attempt index `k` with
`fuel` attempts left, draw a candidate and keep it when no row of `db`
already has that id, else move to the next attempt. -/
def genPidAux (db : Table) (draws : Nat → Nat) : Nat → Nat → Option Nat
  | _, 0 => none
  | k, Nat.succ fuel =>
      if db.any (fun t => t.id == pidOf (draws k)) then genPidAux db draws (k + 1) fuel
      else some (pidOf (draws k))

/-- Function `_generate_unique_pid(db)` with its default `max_attempts = 5`:
`some pid` on success, `none` for the `HTTPException(500)` it raises
when all five attempts collide. -/
def generateUniquePid (db : Table) (draws : Nat → Nat) : Option Nat :=
  genPidAux db draws 0 5

/-- The validated request body (pydantic model `TaskCreate` after a
successful parse).  `priority` already defaulted to 3 when absent. -/
structure TaskCreate where
  name : String
  priority : Int
  owner : String
  command : String
deriving DecidableEq, Repr

/-- A raw `POST /tasks` JSON body before validation: each field present
or absent.  (JSON-level type coercion is outside this embedding; field
values are already of their declared carrier type.) -/
structure RawTaskCreate where
  name : Option String
  priority : Option Int
  owner : Option String
  command : Option String
deriving DecidableEq, Repr

/-- Pydantic validation of `TaskCreate` as declared in `main.py`:
`name`, `owner`, `command` required (`Field(...)`, no emptiness
constraint), `priority` optional with default `3` and bounds
`ge=0, le=5`.  Failure is FastAPI's 422 response. -/
def validateTaskCreate (r : RawTaskCreate) : Except ApiError TaskCreate :=
  match r.name, r.owner, r.command with
  | some n, some o, some c =>
      match r.priority with
      | none => .ok ⟨n, 3, o, c⟩
      | some p => if 0 ≤ p ∧ p ≤ 5 then .ok ⟨n, p, o, c⟩ else .error .invalidBody
  | _, _, _ => .error .invalidBody

/-- The `Task(...)` constructor call inside `create_task`: fields from
the validated body, `status=running`, `created_at` defaulted to the
current time by the column default, `updated_at` absent. -/
def mkTask (pid : Nat) (req : TaskCreate) (now : Nat) : Task :=
  { id := pid, name := req.name, priority := req.priority, owner := req.owner,
    command := req.command, status := .running, created_at := now,
    updated_at := none }

/-- Commit of `db.add(t)` under the table's primary-key constraint:
a duplicate id makes the commit fail with `IntegrityError`. -/
def insertTask (t : Task) (db : Table) : Except Unit Table :=
  if db.any (fun u => u.id == t.id) then .error () else .ok (db ++ [t])

/-- After the `IntegrityError` rollback, `create_task` re-enters itself;
the re-entry sees fresh randomness, modelled by skipping the (at most 5)
draws the failed attempt consumed. -/
def shiftDraws (draws : Nat → Nat) : Nat → Nat := fun i => draws (i + 5)

/-- Body of `create_task` with its self-recursion on `IntegrityError`
(`except IntegrityError: db.rollback(); return create_task(task, db)`),
made total with a fuel parameter; `none` is fuel exhaustion.
`createTaskFuel_succ_eq` below shows the recursive branch never runs, so
any positive fuel yields `create_task`. -/
def createTaskFuel :
    Nat → TaskCreate → Table → (Nat → Nat) → Nat → Option (Except ApiError (Task × Table))
  | 0, _, _, _, _ => none
  | Nat.succ fuel, req, db, draws, now =>
      match generateUniquePid db draws with
      | none => some (.error .pidExhausted)
      | some pid =>
          match insertTask (mkTask pid req now) db with
          | .error _ => createTaskFuel fuel req db (shiftDraws draws) now
          | .ok db2 => some (.ok (mkTask pid req now, db2))

/-- Handler `create_task` on a validated body: allocate a PID (500 when the five
attempts are exhausted), insert the new row, return the persisted
record.  The insert cannot hit the `IntegrityError` branch because the
allocated pid was just checked absent (`createTaskFuel_succ_eq`). -/
def create_task (req : TaskCreate) (db : Table) (draws : Nat → Nat) (now : Nat) :
    Except ApiError (Task × Table) :=
  match generateUniquePid db draws with
  | none => .error .pidExhausted
  | some pid => .ok (mkTask pid req now, db ++ [mkTask pid req now])

/-- The full `POST /tasks` request: body validation (before any
persistence action), then `create_task`; the resulting response and
table. -/
def handleCreate (raw : RawTaskCreate) (db : Table) (draws : Nat → Nat) (now : Nat) :
    Except ApiError Task × Table :=
  match validateTaskCreate raw with
  | .error e => (.error e, db)
  | .ok req =>
      match create_task req db draws now with
      | .error e => (.error e, db)
      | .ok (t, db2) => (.ok t, db2)

/-- The `ORDER BY created_at DESC` relation: `a` precedes `b` when `a`
was created no earlier than `b`. -/
def createdDesc (a b : Task) : Prop := b.created_at ≤ a.created_at

instance : DecidableRel createdDesc := fun a b =>
  inferInstanceAs (Decidable (b.created_at ≤ a.created_at))

instance : IsTotal Task createdDesc :=
  ⟨fun a b => Nat.le_total b.created_at a.created_at⟩

instance : IsTrans Task createdDesc :=
  ⟨fun _ _ _ hab hbc => Nat.le_trans hbc hab⟩

/-- Handler `list_tasks` for `GET /tasks`: filter by status when the query parameter is given,
then order by `created_at` descending.  Read-only. -/
def list_tasks (status : Option TaskStatus) (db : Table) : List Task :=
  let q : List Task :=
    match status with
    | none => db
    | some s => db.filter (fun t => t.status == s)
  List.insertionSort createdDesc q

/-- Handler `complete_task` for `PATCH /tasks/{task_id}`: look the row up by id —
404 when absent, 409 when already completed (both raised before any
write) — otherwise set `status=completed` and `updated_at=now` on that
row and commit.  Returns the response together with the table after the
request. -/
def complete_task (taskId : Nat) (now : Nat) (db : Table) :
    Except ApiError Task × Table :=
  match db.find? (fun t => t.id == taskId) with
  | none => (.error .notFound, db)
  | some t =>
      if t.status = TaskStatus.completed then (.error .conflict, db)
      else
        let t2 : Task := { t with status := TaskStatus.completed, updated_at := some now }
        (.ok t2, db.map (fun u => if u.id == taskId then t2 else u))

/-- One client request against the service. -/
inductive Op where
  | create (raw : RawTaskCreate) (draws : Nat → Nat) (now : Nat)
  | list (status : Option TaskStatus)
  | complete (taskId : Nat) (now : Nat)

/-- Effect of a request on the `tasks` table.  `GET /tasks` only runs a
query, so it leaves the table as it was. -/
def step : Op → Table → Table
  | .create raw draws now, db => (handleCreate raw db draws now).2
  | .list _, db => db
  | .complete taskId now, db => (complete_task taskId now db).2

/-- Concrete running task used in the closed witness statements. -/
def sampleTask : Task :=
  { id := 1000, name := "Backup", priority := 3, owner := "admin",
    command := "rsync -avz /data /backup", status := .running,
    created_at := 5, updated_at := none }

/-- Every candidate `randint` produces lies in the inclusive PID range. -/
theorem pidOf_range (r : Nat) : PID_MIN ≤ pidOf r ∧ pidOf r ≤ PID_MAX := by
  unfold pidOf PID_MIN PID_MAX
  have h : r % (99999 - 1000 + 1) < 99999 - 1000 + 1 :=
    Nat.mod_lt _ (by norm_num)
  omega

/-- A pid returned by the allocation loop collides with no row of `db`
and lies in the PID range. -/
theorem genPidAux_fresh {db : Table} {draws : Nat → Nat} {k fuel pid : Nat}
    (h : genPidAux db draws k fuel = some pid) :
    db.any (fun t => t.id == pid) = false ∧ PID_MIN ≤ pid ∧ pid ≤ PID_MAX := by
  induction fuel generalizing k with
  | zero => simp [genPidAux] at h
  | succ n ih =>
      unfold genPidAux at h
      split at h
      · exact ih h
      · rename_i hc
        cases h
        exact ⟨Bool.not_eq_true _ ▸ eq_false_of_ne_true hc, pidOf_range _⟩

/-- Same fact for `_generate_unique_pid` itself. -/
theorem generateUniquePid_fresh {db : Table} {draws : Nat → Nat} {pid : Nat}
    (h : generateUniquePid db draws = some pid) :
    db.any (fun t => t.id == pid) = false ∧ PID_MIN ≤ pid ∧ pid ≤ PID_MAX :=
  genPidAux_fresh h

/-- The allocation loop inspects only the draws at indices
`k, k + 1, …, k + fuel - 1`. -/
theorem genPidAux_congr {db : Table} {draws draws2 : Nat → Nat} {fuel : Nat} :
    ∀ {k : Nat}, (∀ i, k ≤ i → i < k + fuel → draws i = draws2 i) →
      genPidAux db draws k fuel = genPidAux db draws2 k fuel := by
  induction fuel with
  | zero => intro k _; rfl
  | succ n ih =>
      intro k h
      have hk : draws k = draws2 k := h k (Nat.le_refl k) (by omega)
      unfold genPidAux
      rw [hk]
      split
      · exact ih (fun i h1 h2 => h i (by omega) (by omega))
      · rfl

/-- With any positive fuel, the recursive `IntegrityError` branch of
`create_task` is never taken: the freshly allocated pid is absent from
the table, so the insert commits, and the computation agrees with the
fuel-free `create_task`. -/
theorem createTaskFuel_succ_eq (fuel : Nat) (req : TaskCreate) (db : Table)
    (draws : Nat → Nat) (now : Nat) :
    createTaskFuel (fuel + 1) req db draws now = some (create_task req db draws now) := by
  unfold createTaskFuel create_task
  cases hg : generateUniquePid db draws with
  | none => rfl
  | some pid =>
      have hfresh := (generateUniquePid_fresh hg).1
      simp only [insertTask, mkTask, hfresh, Bool.false_eq_true, if_false]

/-- A completion update never rewrites the id of a row. -/
theorem complete_update_id (taskId : Nat) (t2 : Task) (h2 : t2.id = taskId) (v : Task) :
    Task.id (if v.id == taskId then t2 else v) = v.id := by
  split
  · rename_i hv
    simp only [beq_iff_eq] at hv
    rw [h2, hv]
  · rfl

/-- On a successful completion the update rewrites rows in place without
touching any id, so the table's id column is unchanged. -/
theorem complete_map_id (taskId : Nat) (t2 : Task) (h2 : t2.id = taskId) (db : Table) :
    (db.map (fun u => if u.id == taskId then t2 else u)).map Task.id = db.map Task.id := by
  rw [List.map_map]
  apply List.map_congr_left
  intro u _
  exact complete_update_id taskId t2 h2 u

/-- C4: PID allocation in `create_task` is bounded: the allocator
consults at most 5 draws of the random stream, exhausting them fails the
request with the explicit 500 allocation error, and the
`IntegrityError` self-recursion of `create_task` is never executed —
any positive fuel gives the same (terminating) result, `create_task`. -/
theorem create_task_bounded (req : TaskCreate) (db : Table)
    (draws draws2 : Nat → Nat) (now fuel : Nat) :
    createTaskFuel (fuel + 1) req db draws now = some (create_task req db draws now) ∧
    ((∀ i, i < 5 → draws i = draws2 i) →
      generateUniquePid db draws = generateUniquePid db draws2) ∧
    (generateUniquePid db draws = none →
      create_task req db draws now = .error .pidExhausted ∧
      ApiError.code .pidExhausted = 500) := by
  refine ⟨createTaskFuel_succ_eq fuel req db draws now, ?_, ?_⟩
  · intro h
    exact genPidAux_congr (fun i h1 h2 => h i (by omega))
  · intro h
    unfold create_task
    rw [h]
    exact ⟨rfl, rfl⟩

/-- Witness for C4 at concrete inputs: the allocator's result depends
only on the first five draws, and a table covering the drawn candidate
five times exhausts the attempts into the 500 error. -/
theorem create_task_bounded_witness :
    createTaskFuel 7 ⟨"n", 3, "o", "c"⟩ [] (fun _ => 0) 5 =
      some (create_task ⟨"n", 3, "o", "c"⟩ [] (fun _ => 0) 5) ∧
    generateUniquePid [] (fun _ => 0) =
      generateUniquePid [] (fun i => if i < 5 then 0 else 7) ∧
    (generateUniquePid [sampleTask] (fun _ => 0) = none ∧
      create_task ⟨"n", 3, "o", "c"⟩ [sampleTask] (fun _ => 0) 5 =
        .error .pidExhausted ∧
      ApiError.code .pidExhausted = 500) := by
  refine ⟨(create_task_bounded ⟨"n", 3, "o", "c"⟩ [] (fun _ => 0) (fun _ => 0) 5 6).1,
    (create_task_bounded ⟨"n", 3, "o", "c"⟩ [] (fun _ => 0)
      (fun i => if i < 5 then 0 else 7) 5 0).2.1 (fun i hi => by simp [hi]), rfl, ?_, rfl⟩
  exact ((create_task_bounded ⟨"n", 3, "o", "c"⟩ [sampleTask] (fun _ => 0)
    (fun _ => 0) 5 0).2.2 rfl).1

/-- C1: id uniqueness is an invariant of every operation: a request
against a table whose ids are pairwise distinct leaves a table whose ids
are pairwise distinct.  Creation only inserts a pid checked absent, and
no other operation changes any id. -/
theorem step_id_nodup (op : Op) (db : Table) (h : (db.map Task.id).Nodup) :
    ((step op db).map Task.id).Nodup := by
  cases op with
  | list s => exact h
  | create raw draws now =>
      show ((handleCreate raw db draws now).2.map Task.id).Nodup
      unfold handleCreate
      cases hv : validateTaskCreate raw with
      | error e => exact h
      | ok req =>
          unfold create_task
          cases hg : generateUniquePid db draws with
          | none => exact h
          | some pid =>
              have hfresh := (generateUniquePid_fresh hg).1
              rw [List.any_eq_false] at hfresh
              simp only [List.map_append, List.map_cons, List.map_nil]
              rw [List.nodup_append]
              refine ⟨h, List.nodup_singleton _, ?_⟩
              intro a ha hb
              simp only [List.mem_singleton] at hb
              subst hb
              rcases List.mem_map.mp ha with ⟨t, ht, hid⟩
              exact hfresh t ht (by simp [mkTask] at hid ⊢; exact hid)
  | complete taskId now =>
      show ((complete_task taskId now db).2.map Task.id).Nodup
      unfold complete_task
      cases hf : db.find? (fun t => t.id == taskId) with
      | none => exact h
      | some t =>
          have hid : t.id = taskId := by
            have := List.find?_some hf
            simpa using this
          by_cases hs : t.status = TaskStatus.completed
          · simp only [hs, if_true]
            exact h
          · simp only [hs, if_false]
            rw [complete_map_id taskId
              { t with status := TaskStatus.completed, updated_at := some now } hid db]
            exact h

/-- Witness for C1: completing the sample task preserves distinctness
of the id column. -/
theorem step_id_nodup_witness :
    (([sampleTask] : Table).map Task.id).Nodup ∧
    ((step (.complete 1000 9) [sampleTask]).map Task.id).Nodup :=
  ⟨by decide, step_id_nodup (.complete 1000 9) [sampleTask] (by decide)⟩

/-- C2: status transitions are monotonic.  Whatever request runs, each
row of the resulting table either sits at an index the old table already
had — and there its status is unchanged or went `running → completed` —
or is a newly created row, which starts at `running`.  In particular a
row whose status is `completed` can never have its status changed by any
operation. -/
theorem step_status_monotone (op : Op) (db : Table) (i : Nat) (u : Task)
    (hu : (step op db)[i]? = some u) :
    ((∃ t, db[i]? = some t ∧
        (u.status = t.status ∨ (t.status = .running ∧ u.status = .completed))) ∨
      (db.length ≤ i ∧ u.status = .running)) ∧
    (∀ t, db[i]? = some t → t.status = .completed → u.status = .completed) := by
  have key : (∃ t, db[i]? = some t ∧
      (u.status = t.status ∨ (t.status = .running ∧ u.status = .completed))) ∨
      (db.length ≤ i ∧ u.status = .running) := by
    cases op with
    | list s => exact Or.inl ⟨u, hu, Or.inl rfl⟩
    | create raw draws now =>
        cases hv : validateTaskCreate raw with
        | error e =>
            simp only [step, handleCreate, hv] at hu
            exact Or.inl ⟨u, hu, Or.inl rfl⟩
        | ok req =>
            cases hg : generateUniquePid db draws with
            | none =>
                simp only [step, handleCreate, create_task, hv, hg] at hu
                exact Or.inl ⟨u, hu, Or.inl rfl⟩
            | some pid =>
                simp only [step, handleCreate, create_task, hv, hg] at hu
                by_cases hi : i < db.length
                · rw [List.getElem?_append_left hi] at hu
                  exact Or.inl ⟨u, hu, Or.inl rfl⟩
                · push_neg at hi
                  rw [List.getElem?_append_right hi] at hu
                  cases hd : i - db.length with
                  | zero =>
                      rw [hd] at hu
                      rw [List.getElem?_cons_zero] at hu
                      cases hu
                      exact Or.inr ⟨hi, rfl⟩
                  | succ m =>
                      rw [hd, List.getElem?_cons_succ, List.getElem?_nil] at hu
                      cases hu
    | complete taskId now =>
        cases hf : db.find? (fun t => t.id == taskId) with
        | none =>
            simp only [step, complete_task, hf] at hu
            exact Or.inl ⟨u, hu, Or.inl rfl⟩
        | some t =>
            by_cases hs : t.status = TaskStatus.completed
            · simp only [step, complete_task, hf, hs, if_true] at hu
              exact Or.inl ⟨u, hu, Or.inl rfl⟩
            · simp only [step, complete_task, hf, hs, if_false] at hu
              rw [List.getElem?_map] at hu
              cases hm : db[i]? with
              | none => rw [hm] at hu; cases hu
              | some v =>
                  rw [hm] at hu
                  simp only [Option.map] at hu
                  cases hu
                  by_cases hvid : (v.id == taskId) = true
                  · refine Or.inl ⟨v, rfl, ?_⟩
                    cases hvs : v.status with
                    | running => exact Or.inr ⟨rfl, by simp [hvid]⟩
                    | completed => exact Or.inl (by simp [hvid, hvs])
                  · exact Or.inl ⟨v, rfl, Or.inl (by simp [hvid])⟩
  refine ⟨key, ?_⟩
  intro t ht hcomp
  rcases key with ⟨t0, ht0, hk⟩ | ⟨hlen, _⟩
  · rw [ht] at ht0
    cases ht0
    rcases hk with h1 | ⟨h2, _⟩
    · rw [h1, hcomp]
    · rw [hcomp] at h2; cases h2
  · rw [List.getElem?_eq_none hlen] at ht; cases ht

/-- Witness for C2 at a concrete completed row: the completion request
cannot change its status. -/
theorem step_status_monotone_witness :
    ((step (.complete 1000 9)
        [{ sampleTask with status := .completed, updated_at := some 7 }])[0]? =
      some { sampleTask with status := .completed, updated_at := some 7 }) ∧
    (∀ t, ([{ sampleTask with status := .completed, updated_at := some 7 }] :
        Table)[0]? = some t → t.status = .completed →
      Task.status { sampleTask with status := .completed, updated_at := some 7 } =
        .completed) :=
  ⟨by decide,
    (step_status_monotone (.complete 1000 9)
      [{ sampleTask with status := .completed, updated_at := some 7 }] 0
      { sampleTask with status := .completed, updated_at := some 7 } (by decide)).2⟩

/-- C3: on a table with distinct ids, `complete_task` 404s exactly when
no row carries the requested id, 409s exactly when the row exists and is
already completed, and on either error the table — hence in particular
the row's `updated_at` — is untouched; when the row exists and is still
running, the request succeeds. -/
theorem complete_task_error_spec (taskId now : Nat) (db : Table)
    (hN : (db.map Task.id).Nodup) :
    ((complete_task taskId now db).1 = .error .notFound ↔ ∀ t ∈ db, t.id ≠ taskId) ∧
    ((complete_task taskId now db).1 = .error .conflict ↔
      ∃ t ∈ db, t.id = taskId ∧ t.status = .completed) ∧
    (∀ e, (complete_task taskId now db).1 = .error e →
      (complete_task taskId now db).2 = db) ∧
    ((∃ t ∈ db, t.id = taskId ∧ t.status = .running) →
      ∃ u, (complete_task taskId now db).1 = .ok u) ∧
    ApiError.code .notFound = 404 ∧ ApiError.code .conflict = 409 := by
  cases hf : db.find? (fun t => t.id == taskId) with
  | none =>
      have habs : ∀ t ∈ db, t.id ≠ taskId := by
        rw [List.find?_eq_none] at hf
        intro t ht
        simpa using hf t ht
      have hEq : complete_task taskId now db = (.error .notFound, db) := by
        simp only [complete_task, hf]
      rw [hEq]
      refine ⟨⟨fun _ => habs, fun _ => rfl⟩, ⟨fun h => ?_, fun h => ?_⟩,
        fun e _ => rfl, fun h => ?_, rfl, rfl⟩
      · simp at h
      · rcases h with ⟨t, ht, hid, _⟩
        exact absurd hid (habs t ht)
      · rcases h with ⟨t, ht, hid, _⟩
        exact absurd hid (habs t ht)
  | some t =>
      have hid : t.id = taskId := by simpa using List.find?_some hf
      have hmem : t ∈ db := List.mem_of_find?_eq_some hf
      have huniq : ∀ v ∈ db, v.id = taskId → v = t := by
        intro v hv hvid
        exact List.inj_on_of_nodup_map hN hv hmem (by rw [hvid, hid])
      by_cases hs : t.status = TaskStatus.completed
      · have hEq : complete_task taskId now db = (.error .conflict, db) := by
          simp only [complete_task, hf, hs, if_true]
        rw [hEq]
        refine ⟨⟨fun h => ?_, fun h => ?_⟩, ⟨fun _ => ⟨t, hmem, hid, hs⟩, fun _ => rfl⟩,
          fun e _ => rfl, fun h => ?_, rfl, rfl⟩
        · simp at h
        · exact absurd hid (h t hmem)
        · rcases h with ⟨v, hv, hvid, hvs⟩
          rw [huniq v hv hvid] at hvs
          rw [hvs] at hs
          cases hs
      · have hEq : complete_task taskId now db =
            (.ok { t with status := TaskStatus.completed, updated_at := some now },
              db.map (fun u => if u.id == taskId then
                { t with status := TaskStatus.completed, updated_at := some now }
                else u)) := by
          simp only [complete_task, hf, hs, if_false]
        rw [hEq]
        refine ⟨⟨fun h => ?_, fun h => ?_⟩, ⟨fun h => ?_, fun h => ?_⟩,
          fun e he => ?_, fun _ => ⟨_, rfl⟩, rfl, rfl⟩
        · simp at h
        · exact absurd hid (h t hmem)
        · simp at h
        · rcases h with ⟨v, hv, hvid, hvs⟩
          rw [huniq v hv hvid] at hvs
          exact absurd hvs hs
        · simp at he

/-- Witness for C3: a one-row table with a running task; completing an
absent id is exactly a 404. -/
theorem complete_task_error_spec_witness :
    (([sampleTask] : Table).map Task.id).Nodup ∧
    ((complete_task 2000 9 [sampleTask]).1 = .error .notFound ↔
      ∀ t ∈ ([sampleTask] : Table), t.id ≠ 2000) :=
  ⟨by decide, (complete_task_error_spec 2000 9 [sampleTask] (by decide)).1⟩

/-- C10: a successful completion changes only the `status` and
`updated_at` fields of the targeted row — id, name, priority, owner,
command and `created_at` survive — and every row whose id differs is
byte-for-byte unchanged at its index. -/
theorem complete_task_frame (taskId now : Nat) (db : Table) (u : Task) (db2 : Table)
    (hc : complete_task taskId now db = (.ok u, db2)) :
    u.status = .completed ∧ u.updated_at = some now ∧
    (∃ t, db.find? (fun x => x.id == taskId) = some t ∧
      u.id = t.id ∧ u.name = t.name ∧ u.priority = t.priority ∧
      u.owner = t.owner ∧ u.command = t.command ∧ u.created_at = t.created_at ∧
      t.status = .running) ∧
    db2.length = db.length ∧
    (∀ (i : Nat) (v : Task), db[i]? = some v → v.id ≠ taskId → db2[i]? = some v) ∧
    (∀ (i : Nat) (v : Task), db[i]? = some v → v.id = taskId → db2[i]? = some u) := by
  cases hf : db.find? (fun t => t.id == taskId) with
  | none =>
      simp only [complete_task, hf] at hc
      injection hc with hc1 _
      cases hc1
  | some t =>
      by_cases hs : t.status = TaskStatus.completed
      · simp only [complete_task, hf, hs, if_true] at hc
        injection hc with hc1 _
        cases hc1
      · simp only [complete_task, hf, hs, if_false] at hc
        injection hc with hc1 hc2
        injection hc1 with hc1
        subst hc1
        subst hc2
        have hrun : t.status = .running := by
          cases hts : t.status with
          | running => rfl
          | completed => exact absurd hts hs
        refine ⟨rfl, rfl, ⟨t, rfl, rfl, rfl, rfl, rfl, rfl, rfl, hrun⟩,
          List.length_map .., ?_, ?_⟩
        · intro i v hv hne
          rw [List.getElem?_map, hv]
          simp only [Option.map]
          have hb : (v.id == taskId) = false := by simpa using hne
          rw [hb]
          simp
        · intro i v hv heq
          rw [List.getElem?_map, hv]
          simp only [Option.map]
          have hb : (v.id == taskId) = true := by simpa using heq
          rw [hb]
          simp

/-- Witness for C10: completing the sample running task rewrites only
its status and `updated_at`. -/
theorem complete_task_frame_witness :
    complete_task 1000 9 [sampleTask] =
      (.ok { sampleTask with status := .completed, updated_at := some 9 },
        [{ sampleTask with status := .completed, updated_at := some 9 }]) ∧
    Task.status { sampleTask with status := .completed, updated_at := some 9 } =
      .completed ∧
    Task.name { sampleTask with status := .completed, updated_at := some 9 } =
      sampleTask.name :=
  ⟨rfl,
    (complete_task_frame 1000 9 [sampleTask]
      { sampleTask with status := .completed, updated_at := some 9 }
      [{ sampleTask with status := .completed, updated_at := some 9 }] rfl).1,
    rfl⟩


/-- C5: a successful `POST /tasks` returns exactly the persisted row:
status `running`, `updated_at` null, `created_at` the request time, the
freshly allocated PID as id, `name`/`owner`/`command` echoed from the
body, priority defaulted to 3 when the body omits it; and the new table
is the old one plus that single row. -/
theorem create_task_success_spec (raw : RawTaskCreate) (db : Table) (draws : Nat → Nat)
    (now : Nat) (t : Task) (db2 : Table)
    (hc : handleCreate raw db draws now = (.ok t, db2)) :
    t.status = .running ∧ t.updated_at = none ∧ t.created_at = now ∧
    db2 = db ++ [t] ∧ generateUniquePid db draws = some t.id ∧
    (raw.priority = none → t.priority = 3) ∧
    raw.name = some t.name ∧ raw.owner = some t.owner ∧
    raw.command = some t.command := by
  cases hv : validateTaskCreate raw with
  | error e =>
      simp only [handleCreate, hv] at hc
      injection hc with hc1 _
      cases hc1
  | ok req =>
      cases hg : generateUniquePid db draws with
      | none =>
          simp only [handleCreate, create_task, hv, hg] at hc
          injection hc with hc1 _
          cases hc1
      | some pid =>
          simp only [handleCreate, create_task, hv, hg] at hc
          injection hc with hc1 hc2
          injection hc1 with hc1
          subst hc1
          subst hc2
          obtain ⟨nm, pr, ow, cm⟩ := raw
          cases nm with
          | none => simp [validateTaskCreate] at hv
          | some n =>
              cases ow with
              | none => simp [validateTaskCreate] at hv
              | some o =>
                  cases cm with
                  | none => simp [validateTaskCreate] at hv
                  | some c =>
                      cases pr with
                      | none =>
                          simp only [validateTaskCreate] at hv
                          injection hv with hv
                          subst hv
                          exact ⟨rfl, rfl, rfl, rfl, rfl, fun _ => rfl, rfl, rfl, rfl⟩
                      | some p =>
                          simp only [validateTaskCreate] at hv
                          split at hv
                          · injection hv with hv
                            subst hv
                            refine ⟨rfl, rfl, rfl, rfl, rfl, fun hab => ?_, rfl, rfl, rfl⟩
                            simp at hab
                          · cases hv

/-- Witness for C5: Scenario 1 of the spec on an empty table. -/
theorem create_task_success_spec_witness :
    handleCreate ⟨some "Backup", none, some "admin", some "rsync -avz /data /backup"⟩
        [] (fun _ => 0) 5 = (.ok sampleTask, [sampleTask]) ∧
    sampleTask.status = .running ∧ sampleTask.updated_at = none ∧
    sampleTask.priority = 3 := by
  have h := create_task_success_spec
    ⟨some "Backup", none, some "admin", some "rsync -avz /data /backup"⟩
    [] (fun _ => 0) 5 sampleTask [sampleTask] rfl
  exact ⟨rfl, h.1, h.2.1, h.2.2.2.2.2.1 rfl⟩

/-- C6 counterexample: the pydantic model puts no emptiness constraint
on `name`, `owner` or `command`, so a body whose `name` is the empty
string is not rejected with 422 — it is accepted and persisted. -/
theorem create_task_empty_name_not_rejected :
    handleCreate ⟨some "", some 3, some "admin", some "ls"⟩ [] (fun _ => 0) 5 =
      (.ok { id := 1000, name := "", priority := 3, owner := "admin", command := "ls",
             status := .running, created_at := 5, updated_at := none },
        [{ id := 1000, name := "", priority := 3, owner := "admin", command := "ls",
           status := .running, created_at := 5, updated_at := none }]) := rfl

/-- C6 as amended: a body missing `name`, `owner` or `command`, or
carrying a priority outside `[0, 5]`, fails with the 422 validation
error before any persistence action — the table is returned unchanged.
(Empty strings, however, pass validation: see the counterexample.) -/
theorem create_task_validation_spec (raw : RawTaskCreate) (db : Table)
    (draws : Nat → Nat) (now : Nat)
    (h : raw.name = none ∨ raw.owner = none ∨ raw.command = none ∨
      ∃ p, raw.priority = some p ∧ (p < 0 ∨ 5 < p)) :
    handleCreate raw db draws now = (.error .invalidBody, db) ∧
    ApiError.code .invalidBody = 422 := by
  have hv : validateTaskCreate raw = .error .invalidBody := by
    rcases h with h | h | h | ⟨p, hp, hrange⟩
    · obtain ⟨nm, pr, ow, cm⟩ := raw
      cases nm with
      | some n => simp at h
      | none => cases ow <;> cases cm <;> rfl
    · obtain ⟨nm, pr, ow, cm⟩ := raw
      cases ow with
      | some o => simp at h
      | none => cases nm <;> cases cm <;> rfl
    · obtain ⟨nm, pr, ow, cm⟩ := raw
      cases cm with
      | some c => simp at h
      | none => cases nm <;> cases ow <;> rfl
    · obtain ⟨nm, pr, ow, cm⟩ := raw
      cases nm with
      | none => cases ow <;> cases cm <;> rfl
      | some n =>
          cases ow with
          | none => cases cm <;> rfl
          | some o =>
              cases cm with
              | none => rfl
              | some c =>
                  cases pr with
                  | none => simp at hp
                  | some q =>
                      have hq : q = p := by simpa using hp
                      subst hq
                      simp only [validateTaskCreate]
                      rw [if_neg]
                      omega
  exact ⟨by simp only [handleCreate, hv], rfl⟩

/-- Witness for C6 (amended): a body with no `name` field is rejected
with 422 and the table is untouched. -/
theorem create_task_validation_spec_witness :
    ((⟨none, some 2, some "admin", some "ls"⟩ : RawTaskCreate).name = none ∨
      (⟨none, some 2, some "admin", some "ls"⟩ : RawTaskCreate).owner = none ∨
      (⟨none, some 2, some "admin", some "ls"⟩ : RawTaskCreate).command = none ∨
      ∃ p, (⟨none, some 2, some "admin", some "ls"⟩ : RawTaskCreate).priority = some p ∧
        (p < 0 ∨ 5 < p)) ∧
    handleCreate ⟨none, some 2, some "admin", some "ls"⟩ [sampleTask] (fun _ => 0) 5 =
      (.error .invalidBody, [sampleTask]) ∧
    ApiError.code .invalidBody = 422 := by
  have h := create_task_validation_spec ⟨none, some 2, some "admin", some "ls"⟩
    [sampleTask] (fun _ => 0) 5 (Or.inl rfl)
  exact ⟨Or.inl rfl, h.1, h.2⟩

/-- C7: `GET /tasks?status=s` returns exactly the rows whose status is
`s` (a permutation of the filtered table, hence the same multiset), the
unfiltered listing returns all rows, and listing never mutates the
table. -/
theorem list_tasks_filter_spec (s : TaskStatus) (db : Table) :
    List.Perm (list_tasks (some s) db) (db.filter (fun t => t.status == s)) ∧
    List.Perm (list_tasks none db) db ∧
    (∀ q : Option TaskStatus, step (.list q) db = db) ∧
    (∀ t : Task, t ∈ list_tasks (some s) db ↔ t ∈ db ∧ t.status = s) := by
  refine ⟨List.perm_insertionSort createdDesc _, List.perm_insertionSort createdDesc _,
    fun q => rfl, fun t => ?_⟩
  simp only [list_tasks]
  rw [(List.perm_insertionSort createdDesc _).mem_iff]
  simp [List.mem_filter]

/-- Witness for C7: the sample running task is listed under the
`running` filter exactly because it is in the table and running. -/
theorem list_tasks_filter_spec_witness :
    sampleTask ∈ list_tasks (some .running) [sampleTask] ↔
      sampleTask ∈ ([sampleTask] : Table) ∧ sampleTask.status = .running :=
  (list_tasks_filter_spec .running [sampleTask]).2.2.2 sampleTask

/-- C8: every listing, filtered or not, comes back sorted by
`created_at` in descending order (most recent first). -/
theorem list_tasks_sorted_desc (q : Option TaskStatus) (db : Table) :
    (list_tasks q db).Pairwise (fun a b => b.created_at ≤ a.created_at) := by
  have h := List.sorted_insertionSort createdDesc
    (match q with
      | none => db
      | some s => db.filter (fun t => t.status == s))
  exact h

/-- C9: ids live in `[1000, 99999]`: the allocator only emits pids in
that range, every operation keeps the ids of a table inside the range
within it, and no operation rewrites the id stored at any existing
index (ids are server-assigned at creation and immutable). -/
theorem task_ids_in_range (op : Op) (db : Table)
    (h : ∀ t ∈ db, 1000 ≤ t.id ∧ t.id ≤ 99999) :
    (∀ u ∈ step op db, 1000 ≤ u.id ∧ u.id ≤ 99999) ∧
    (∀ i : Nat, i < db.length →
      Option.map Task.id ((step op db)[i]?) = Option.map Task.id (db[i]?)) ∧
    (∀ (draws2 : Nat → Nat) (pid : Nat),
      generateUniquePid db draws2 = some pid → 1000 ≤ pid ∧ pid ≤ 99999) := by
  refine ⟨?_, ?_, fun draws2 pid hp => (generateUniquePid_fresh hp).2⟩
  · cases op with
    | list s => exact h
    | create raw draws now =>
        cases hv : validateTaskCreate raw with
        | error e => simpa only [step, handleCreate, hv] using h
        | ok req =>
            cases hg : generateUniquePid db draws with
            | none => simpa only [step, handleCreate, create_task, hv, hg] using h
            | some pid =>
                simp only [step, handleCreate, create_task, hv, hg]
                intro u hu
                rcases List.mem_append.mp hu with hu | hu
                · exact h u hu
                · rw [List.mem_singleton] at hu
                  subst hu
                  exact (generateUniquePid_fresh hg).2
    | complete taskId now =>
        cases hf : db.find? (fun t => t.id == taskId) with
        | none => simpa only [step, complete_task, hf] using h
        | some t =>
            by_cases hs : t.status = TaskStatus.completed
            · simpa only [step, complete_task, hf, hs, if_true] using h
            · simp only [step, complete_task, hf, hs, if_false]
              intro u hu
              rcases List.mem_map.mp hu with ⟨v, hv, rfl⟩
              rw [complete_update_id taskId _ (by simpa using List.find?_some hf) v]
              exact h v hv
  · cases op with
    | list s => intro i _; rfl
    | create raw draws now =>
        cases hv : validateTaskCreate raw with
        | error e => intro i _; simp only [step, handleCreate, hv]
        | ok req =>
            cases hg : generateUniquePid db draws with
            | none => intro i _; simp only [step, handleCreate, create_task, hv, hg]
            | some pid =>
                intro i hi
                simp only [step, handleCreate, create_task, hv, hg]
                rw [List.getElem?_append_left hi]
    | complete taskId now =>
        cases hf : db.find? (fun t => t.id == taskId) with
        | none => intro i _; simp only [step, complete_task, hf]
        | some t =>
            by_cases hs : t.status = TaskStatus.completed
            · intro i _; simp only [step, complete_task, hf, hs, if_true]
            · intro i _
              simp only [step, complete_task, hf, hs, if_false]
              rw [List.getElem?_map]
              cases hm : db[i]? with
              | none => rfl
              | some v =>
                  simp only [Option.map]
                  rw [complete_update_id taskId _ (by simpa using List.find?_some hf) v]

/-- Witness for C9: on the empty table the allocator emits 1000 from
the zero stream, inside the range. -/
theorem task_ids_in_range_witness :
    (∀ t ∈ ([] : Table), 1000 ≤ t.id ∧ t.id ≤ 99999) ∧
    generateUniquePid [] (fun _ => 0) = some 1000 ∧
    (1000 ≤ 1000 ∧ 1000 ≤ 99999) := by
  have h := task_ids_in_range (.list none) [] (by simp)
  exact ⟨by simp, rfl, h.2.2 (fun _ => 0) 1000 rfl⟩

end TaskManager
